import Mathlib

/-!
Verification development for the AgentFlow retrieval engine.

This file shallowly embeds the retrieval-engine core of the repository:

* `SimpleChunking` / `ParagraphChunking` — the chunking strategies of
  src/documents/services/chunking_strategies.py, over `List Char` texts;
* `Embedding` — src/documents/services/embedding_service.py: the cache-first
  `get_embedding` and the retried `_get_embedding_from_api` (3 attempts);
* `VectorDB` — src/documents/services/vector_db_service.py: `index_document`
  and `search` over an explicit in-memory index state;
* `Reranker` — src/qa/services/reranker_service.py: the method dispatch of
  `rerank_documents` and the keyword-boost scoring.

Numeric scores are modelled over `ℚ` (the Python code uses floats; none of
the verified properties depends on rounding).  The stable Python `sorted` is
modelled by a stable insertion sort, which computes the same list as any
stable sort by the same key.
-/

set_option maxRecDepth 4000000

set_option maxHeartbeats 16000000

namespace AgentFlow

/-! ## Python string primitives -/

/-- Whitespace characters stripped by the Python `str.strip()` method (ASCII whitespace
together with the common Unicode whitespace code points). -/
def isPySpace (c : Char) : Bool :=
  c = ' ' || c = '\t' || c = '\n' || c = '\r' || c = '\x0b' || c = '\x0c' ||
  c = '\x1c' || c = '\x1d' || c = '\x1e' || c = '\x1f' ||
  c = '\x85' || c = '\xa0' || c = ' ' ||
  (' ' ≤ c && c ≤ ' ') ||
  c = ' ' || c = ' ' || c = ' ' || c = ' ' || c = '　'

/-- Python `str.strip()`: drop leading and trailing whitespace. -/
def pyStrip (t : List Char) : List Char :=
  ((t.dropWhile isPySpace).reverse.dropWhile isPySpace).reverse

/-- Forward scan used to implement Python `str.rfind(sub, lo, hi)`: walk the
suffixes of `t` starting at index `lo`, remembering the last position where
`sub` occurs, and stop once the remaining positions cannot fit `sub` inside
the slice bound `hi`.  `i` is the index of the head of the current suffix. -/
def pyRfindAux (sub : List Char) (hi : Nat) :
    List Char → Nat → Option Nat → Option Nat
  | [], _, best => best
  | c :: rest, i, best =>
    if hi < i + sub.length then best
    else
      pyRfindAux sub hi rest (i + 1)
        (if sub.isPrefixOf (c :: rest) then some i else best)

/-- Python `t.rfind(sub, lo, hi)`: the largest index `i` with `lo ≤ i`,
`i + sub.length ≤ hi` and `sub` occurring in `t` at `i`; `none` when absent
(Python returns `-1`). -/
def pyRfind (t sub : List Char) (lo hi : Nat) : Option Nat :=
  pyRfindAux sub (min hi t.length) (t.drop lo) lo none

/-- Python substring containment `sub in hay`. -/
def containsSub (sub : List Char) : List Char → Bool
  | [] => sub.isEmpty
  | c :: rest => sub.isPrefixOf (c :: rest) || containsSub sub rest

/-! ## Stable sorting (model of the stable Python `sorted(..., reverse=True)`) -/

/-- Insert `x` into a descending-by-`key` list, after any element with an
equal key: the insertion step of a stable descending sort. -/
def insertDescBy {α β : Type} [LinearOrder β] (key : α → β) (x : α) :
    List α → List α
  | [] => [x]
  | y :: ys => if key y < key x then x :: y :: ys else y :: insertDescBy key x ys

/-- Stable sort, descending by `key`.  The Python `sorted(l, key=..., reverse=True)`
is stable, hence extensionally equal to this insertion sort. -/
def sortDescBy {α β : Type} [LinearOrder β] (key : α → β) (l : List α) : List α :=
  l.foldl (fun acc x => insertDescBy key x acc) []

variable {α β : Type} [LinearOrder β]

theorem length_insertDescBy (key : α → β) (x : α) (l : List α) :
    (insertDescBy key x l).length = l.length + 1 := by
  induction l with
  | nil => rfl
  | cons y ys ih =>
    by_cases h : key y < key x <;> simp [insertDescBy, h, ih]

theorem length_sortDescBy (key : α → β) (l : List α) :
    (sortDescBy key l).length = l.length := by
  suffices h : ∀ acc : List α,
      (l.foldl (fun acc x => insertDescBy key x acc) acc).length =
        acc.length + l.length by
    simpa using h []
  induction l with
  | nil => intro acc; simp
  | cons y ys ih =>
    intro acc
    simp only [List.foldl_cons, ih, length_insertDescBy, List.length_cons]
    omega

theorem mem_insertDescBy (key : α → β) (x a : α) (l : List α) :
    a ∈ insertDescBy key x l ↔ a = x ∨ a ∈ l := by
  induction l with
  | nil => simp [insertDescBy]
  | cons y ys ih =>
    by_cases h : key y < key x
    · simp [insertDescBy, h]
    · simp [insertDescBy, h, ih]
      tauto

theorem mem_sortDescBy (key : α → β) (l : List α) (a : α) :
    a ∈ sortDescBy key l ↔ a ∈ l := by
  suffices h : ∀ acc : List α,
      a ∈ l.foldl (fun acc x => insertDescBy key x acc) acc ↔ a ∈ acc ∨ a ∈ l by
    simpa using h []
  induction l with
  | nil => intro acc; simp
  | cons y ys ih =>
    intro acc
    simp only [List.foldl_cons, ih, mem_insertDescBy, List.mem_cons]
    tauto

theorem sorted_insertDescBy (key : α → β) (x : α) (l : List α)
    (h : l.Pairwise (fun a b => key b ≤ key a)) :
    (insertDescBy key x l).Pairwise (fun a b => key b ≤ key a) := by
  induction l with
  | nil => simp [insertDescBy]
  | cons y ys ih =>
    rcases List.pairwise_cons.1 h with ⟨hy, hys⟩
    by_cases hk : key y < key x
    · rw [insertDescBy, if_pos hk]
      refine List.pairwise_cons.2 ⟨?_, h⟩
      intro b hb
      rcases List.mem_cons.1 hb with rfl | hb
      · exact le_of_lt hk
      · exact le_trans (hy b hb) (le_of_lt hk)
    · rw [insertDescBy, if_neg hk]
      refine List.pairwise_cons.2 ⟨?_, ih hys⟩
      intro b hb
      rcases (mem_insertDescBy key x b ys).1 hb with rfl | hb
      · exact le_of_not_lt hk
      · exact hy b hb

theorem sorted_sortDescBy (key : α → β) (l : List α) :
    (sortDescBy key l).Pairwise (fun a b => key b ≤ key a) := by
  suffices h : ∀ acc : List α, acc.Pairwise (fun a b => key b ≤ key a) →
      (l.foldl (fun acc x => insertDescBy key x acc) acc).Pairwise
        (fun a b => key b ≤ key a) by
    exact h [] (by simp)
  induction l with
  | nil => intro acc hacc; simpa using hacc
  | cons y ys ih =>
    intro acc hacc
    exact ih _ (sorted_insertDescBy key y acc hacc)

/-! ## SimpleChunkingStrategy (chunking_strategies.py, lines 41-118) -/

namespace SimpleChunking

/-- The ordered boundary preference list of `SimpleChunkingStrategy.chunk_text`
(paragraph break, then CJK/ASCII full stops, question and exclamation marks,
semicolons, commas, space). -/
def sentence_boundaries : List (List Char) :=
  [['\n', '\n'], ['。'], ['？'], ['?'], ['！'], ['!'], ['；'], [';'], ['，'], [','], [' ']]

/-- The boundary-scanning loop: for each boundary in order, take the rightmost
occurrence in `[lo, e)`; the first boundary whose position exceeds `start`
determines the new window end (position plus boundary length). -/
def findBoundary (t : List Char) (start lo e : Nat) : List (List Char) → Option Nat
  | [] => none
  | b :: bs =>
    match pyRfind t b lo e with
    | some p => if start < p then some (p + b.length) else findBoundary t start lo e bs
    | none => findBoundary t start lo e bs

/-- The fallback lookback loop `for i in range(end - 1, max(start, end - lookback), -1)`:
scan indices downward (exclusive lower bound `lowExcl`) for a character in
`. ! ? \n`; on a hit the new end is `i + 1`. -/
def lookbackScan (t : List Char) (lowExcl : Nat) : Nat → Option Nat
  | 0 => none
  | i + 1 =>
    if lowExcl < i + 1 then
      if i + 1 < t.length ∧ t.getD (i + 1) ' ' ∈ (['.', '!', '?', '\n'] : List Char) then
        some (i + 2)
      else lookbackScan t lowExcl i
    else none

/-- Window-end computation of one loop iteration of `chunk_text`: clamp to
`start + chunk_size`, then (when not at the end of the text) prefer a sentence
boundary found in `[start + chunk_size / 2, end)`, then the lookback scan. -/
def computeEnd (t : List Char) (csize lookback start : Nat) : Nat :=
  let n := t.length
  let e := min (start + csize) n
  if e < n then
    match findBoundary t start (start + csize / 2) e sentence_boundaries with
    | some eNew => eNew
    | none =>
      match lookbackScan t (max start (e - lookback)) (e - 1) with
      | some eNew => eNew
      | none => e
  else e

/-- Forward-progress computation: `new_start = end - overlap`, forced to
`start + 1` when it would not advance, clamped to the text length. -/
def nextStart (start e overlap n : Nat) : Nat :=
  min (if e - overlap ≤ start then start + 1 else e - overlap) n

theorem lt_nextStart (start e overlap n : Nat) (h : start < n) :
    start < nextStart start e overlap n := by
  have hc : start < (if e - overlap ≤ start then start + 1 else e - overlap) := by
    split <;> omega
  exact Nat.lt_min.2 ⟨hc, h⟩

/-- The main `while start < len(text)` loop of `SimpleChunkingStrategy.chunk_text`:
emit the stripped window when non-empty, stop when the window reached the end
of the text, otherwise continue from the advanced start position.  The loop is
driven by `fuel` to make it structurally recursive; every start position
advances strictly (`lt_nextStart`), so `fuel = t.length - start` iterations
always reach the exit condition — `chunkLoop_fuel_eq` below proves fuel
irrelevance above that threshold, which is exactly the termination of the
Python loop. -/
def chunkLoopF (t : List Char) (csize overlap lookback : Nat) :
    Nat → Nat → List (List Char)
  | 0, _ => []
  | fuel + 1, start =>
    if start < t.length then
      let e := computeEnd t csize lookback start
      let c := pyStrip ((t.drop start).take (e - start))
      let here := if c.isEmpty then [] else [c]
      if t.length ≤ e then here
      else here ++ chunkLoopF t csize overlap lookback fuel (nextStart start e overlap t.length)
    else []

/-- `SimpleChunkingStrategy.chunk_text` with explicit `overlap` and
`lookback` character counts (in the source these are
`int(chunk_size * overlap_ratio)` and `int(chunk_size * lookback_ratio)`). -/
def chunk_text (t : List Char) (csize overlap lookback : Nat) : List (List Char) :=
  if t.isEmpty then [] else chunkLoopF t csize overlap lookback t.length 0

/-- `chunk_text` at the default ratios 0.1/0.1; `int(chunk_size * 0.1)` is
floor division by 10 for the chunk sizes used in this development. -/
def chunk_text_default (t : List Char) (csize : Nat) : List (List Char) :=
  chunk_text t csize (csize / 10) (csize / 10)

end SimpleChunking

/-! ## ParagraphChunkingStrategy (chunking_strategies.py, lines 121-176) -/

namespace ParagraphChunking

/-- Largest index in `l` whose character satisfies `p` (used for the greedy
backtracking of the final newline in the separator regex). -/
def lastIdxWhereAux (p : Char → Bool) : List Char → Nat → Option Nat → Option Nat
  | [], _, best => best
  | c :: rest, i, best => lastIdxWhereAux p rest (i + 1) (if p c then some i else best)

def lastIdxWhere (p : Char → Bool) (l : List Char) : Option Nat :=
  lastIdxWhereAux p l 0 none

/-- Largest index `j` of `l` with `l[j] = CR` and `l[j+1] = LF`. -/
def lastCrLfAux : List Char → Nat → Option Nat → Option Nat
  | c :: d :: rest, i, best =>
    lastCrLfAux (d :: rest) (i + 1) (if c = '\r' ∧ d = '\n' then some i else best)
  | _, _, best => best

def lastCrLf (l : List Char) : Option Nat := lastCrLfAux l 0 none

/-- Length of the match of the paragraph separator regex
`\n\s*\n|\r\n\s*\r\n` at the head of `l` (`none` when it does not match).
The first alternative matches a newline, greedy whitespace, and backtracks to
the last newline inside the whitespace run; the second alternative likewise
for CRLF pairs. -/
def matchSepLen (l : List Char) : Option Nat :=
  match l with
  | '\n' :: rs =>
    match lastIdxWhere (fun c => c = '\n') (rs.takeWhile isPySpace) with
    | some j => some (j + 2)
    | none => none
  | '\r' :: '\n' :: rs =>
    match lastCrLf (rs.takeWhile isPySpace) with
    | some j => some (j + 4)
    | none => none
  | _ => none

theorem matchSepLen_pos (l : List Char) (L : Nat) (h : matchSepLen l = some L) :
    1 ≤ L := by
  unfold matchSepLen at h
  split at h <;> first
    | exact absurd h (by simp)
    | (split at h <;> simp_all <;> omega)

/-- `re.split` with the paragraph separator regex: scan left to right, cut at
each leftmost separator match, and continue after it.  Each step consumes at
least one character (`matchSepLen_pos`), so `fuel = l.length + 1` reaches the
base case. -/
def reSplitAuxF : Nat → List Char → List Char → List (List Char)
  | 0, acc, _ => [acc.reverse]
  | fuel + 1, acc, l =>
    match l with
    | [] => [acc.reverse]
    | c :: rest =>
      match matchSepLen (c :: rest) with
      | some L => acc.reverse :: reSplitAuxF fuel [] ((c :: rest).drop L)
      | none => reSplitAuxF fuel (c :: acc) rest

/-- `ParagraphChunkingStrategy._split_paragraphs`: regex-split, strip each
piece, and drop the empty ones. -/
def split_paragraphs (t : List Char) : List (List Char) :=
  ((reSplitAuxF (t.length + 1) [] t).map pyStrip).filter (fun p => ¬ p.isEmpty)

/-- Python `"\n\n".join(...)`. -/
def joinSep (ps : List (List Char)) : List Char :=
  (List.intersperse ['\n', '\n'] ps).flatten

/-- One iteration of the paragraph packing loop: state is
(emitted chunks, current window paragraphs, current window size). An
oversized paragraph flushes the window and is split by the Simple strategy at
half the window with `overlap_ratio=0.05`; a paragraph that would overflow the
window flushes it; otherwise the paragraph is appended to the window. -/
def paraStep (csize : Nat) (st : List (List Char) × List (List Char) × Nat)
    (para : List Char) : List (List Char) × List (List Char) × Nat :=
  match st with
  | (chunks, cur, curSize) =>
    if csize < para.length then
      let flushed := if cur.isEmpty then chunks else chunks ++ [joinSep cur]
      (flushed ++
        SimpleChunking.chunk_text para (csize / 2) (csize / 2 * 5 / 100) (csize / 2 / 10),
        [], 0)
    else if csize < curSize + para.length then
      (chunks ++ [joinSep cur], [para], para.length)
    else (chunks, cur ++ [para], curSize + para.length)

/-- `ParagraphChunkingStrategy.chunk_text`: split into paragraphs, greedily
pack them into windows of at most `chunk_size`, flush the trailing window. -/
def chunk_text (t : List Char) (csize : Nat) : List (List Char) :=
  if t.isEmpty then []
  else
    let folded := (split_paragraphs t).foldl (paraStep csize) ([], [], 0)
    match folded with
    | (chunks, cur, _) => if cur.isEmpty then chunks else chunks ++ [joinSep cur]

end ParagraphChunking

/-! ## VectorDBService (vector_db_service.py)

Vectors are modelled over `ℤ` (float components and the float `normalize_L2`
are abstracted: the `index_document` theorems hold for an arbitrary
normalization function, and `search` is modelled on the already-normalized
query vector, which the spec also assumes; similarity is the inner product,
whose exact scalar field is irrelevant to the count/ordering properties
proved here). -/

namespace VectorDB

abbrev Vec := List ℤ

/-- Inner product, the similarity of a `faiss.IndexFlatIP` index. -/
def dot (u v : Vec) : ℤ := (List.zipWith (· * ·) u v).sum

/-- The in-memory state of one `VectorDBService` instance: the FAISS index
content (dense id = list position, `ntotal` = length) and the
`chunk_mapping` dictionary as an association list in insertion order. -/
structure IndexState where
  vectors : List Vec
  chunk_mapping : List (Nat × Nat)
deriving DecidableEq

def IndexState.ntotal (s : IndexState) : Nat := s.vectors.length

/-- `_create_new_index`: an empty `IndexFlatIP` and an empty mapping. -/
def emptyIndex : IndexState := ⟨[], []⟩

/-- Dictionary lookup `d.get(k)` on an association list. -/
def lookupAssoc {γ : Type} (l : List (Nat × γ)) (k : Nat) : Option γ :=
  (l.find? (fun p => p.1 == k)).map (fun p => p.2)

/-- Sub-batch slicing `chunks[i : i + batch_size]` with `batch_size = 10`,
fuel-driven (each step drops at least one element). -/
def subBatchesF {γ : Type} : Nat → List γ → List (List γ)
  | 0, _ => []
  | _, [] => []
  | fuel + 1, x :: l => (x :: l).take 10 :: subBatchesF fuel ((x :: l).drop 10)

def subBatches {γ : Type} (l : List γ) : List (List γ) := subBatchesF l.length l

/-- One sub-batch iteration of `index_document`: a chunk is a pair of its id
and the outcome of `get_embedding` (`none` models the caught per-item
exception: the item is logged and skipped).  Successful vectors are
normalized (`nrm` abstracts the float `faiss.normalize_L2`), appended to the
index, and the mapping is extended from the pre-batch vector count. -/
def processBatch (nrm : Vec → Vec) (st : IndexState)
    (batch : List (Nat × Option Vec)) : IndexState :=
  let vectors := batch.filterMap (fun p => p.2)
  let chunk_ids := (batch.filter (fun p => p.2.isSome)).map (fun p => p.1)
  if vectors.isEmpty then st
  else
    { vectors := st.vectors ++ vectors.map nrm,
      chunk_mapping := st.chunk_mapping ++
        chunk_ids.enum.map (fun ji => (st.ntotal + ji.1, ji.2)) }

/-- `VectorDBService.index_document`: a failed document or one without chunks
leaves the state unchanged and returns `false`; otherwise the chunks are
processed in sub-batches of 10 and the call returns `true`.  (Persistence,
the Redis marker and the search-cache invalidation are process-external
side effects outside this state model.) -/
def index_document (nrm : Vec → Vec) (st : IndexState) (docFailed : Bool)
    (chunks : List (Nat × Option Vec)) : IndexState × Bool :=
  if docFailed then (st, false)
  else if chunks.isEmpty then (st, false)
  else ((subBatches chunks).foldl (processBatch nrm) st, true)

/-- The database rows referenced from search results: `DocumentChunk`
(content, chunk_index, document_id) and `Document` (title, model version). -/
structure ChunkRow where
  content : List Char
  chunk_index : Nat
  document_id : Nat
deriving DecidableEq

structure DocRow where
  title : List Char
  embedding_model_version : String
deriving DecidableEq

structure SearchDB where
  chunks : List (Nat × ChunkRow)
  documents : List (Nat × DocRow)
deriving DecidableEq

/-- One entry of the result list built by `VectorDBService.search`. -/
structure SearchResult where
  id : Nat
  title : List Char
  content : List Char
  score : ℤ
  chunk_index : Nat
  embedding_model_version : String
deriving DecidableEq

/-- The errors `get_embedding` can raise after exhausting retries. -/
inductive ApiError
  | embeddingAPIError
  | requestException
deriving DecidableEq

/-- `faiss.IndexFlatIP.search`: score every stored vector by inner product
with the query and return the `k` best, highest first (FAISS leaves the order
of exact ties unspecified; this model resolves them by lower dense id). -/
def faissTopK (vecs : List Vec) (q : Vec) (k : Nat) : List (Nat × ℤ) :=
  (sortDescBy (fun p => p.2) (vecs.map (dot q)).enum).take k

/-- The result-building part of `VectorDBService.search` after the query has
been embedded and normalized: retrieve `min(top_k, ntotal)` hits (so FAISS
never pads with `-1`), resolve each dense id through `chunk_mapping`, drop
hits whose chunk or document row no longer exists, drop (and count, in the
source) version-mismatched documents, and sort by score descending
(the stable Python `sorted`). -/
def searchBody (st : IndexState) (db : SearchDB) (modelVersion : String)
    (q : Vec) (top_k : Nat) : List SearchResult :=
  let hits := faissTopK st.vectors q (min top_k st.ntotal)
  let results := hits.filterMap (fun is =>
    match lookupAssoc st.chunk_mapping is.1 with
    | none => none
    | some chunk_id =>
      match lookupAssoc db.chunks chunk_id with
      | none => none
      | some chunk =>
        match lookupAssoc db.documents chunk.document_id with
        | none => none
        | some doc =>
          if doc.embedding_model_version ≠ modelVersion then none
          else some
            { id := chunk.document_id
              title := doc.title
              content := chunk.content
              score := is.2
              chunk_index := chunk.chunk_index
              embedding_model_version := doc.embedding_model_version })
  sortDescBy (fun r => r.score) results

/-- `VectorDBService.search`: an empty index returns `[]` before any
embedding call; the whole body runs inside `try/except` and any raised error
(here: the embedding failure carried by `embRes`) is caught, logged and
turned into `[]`. -/
def search (st : IndexState) (db : SearchDB) (modelVersion : String)
    (embRes : Except ApiError Vec) (top_k : Nat) : List SearchResult :=
  if st.ntotal = 0 then []
  else
    match embRes with
    | .error _ => []
    | .ok q => searchBody st db modelVersion q top_k

end VectorDB

/-! ## EmbeddingService (embedding_service.py) -/

namespace Embedding

/-- Outcome of one provider invocation inside `_get_embedding_from_api`:
success, a `requests` network error (re-raised, retryable), a rate-limit or
timeout error (re-raised as `EmbeddingAPIError`, retryable), or any other
exception (caught in place). -/
inductive Outcome
  | ok (v : VectorDB.Vec)
  | netErr
  | rateLimitOrTimeout
  | otherErr
deriving DecidableEq

/-- The configuration read in `EmbeddingService.__init__`:
`settings.DASHSCOPE_API_KEY`, the model version, and the cache switch. -/
structure Config where
  apiKey : Option String
  modelVersion : String
  enableCache : Bool
deriving DecidableEq

/-- One execution of the body of `_get_embedding_from_api`.  `rand` is the
draw of `np.random.rand(dim)`: without an API key the body returns it as the
test-mode placeholder; with a key, network and rate-limit/timeout errors are
raised (and hence seen by the retry decorator), while any other provider
exception is caught and the body returns the random placeholder. -/
def apiAttempt (cfg : Config) (rand : VectorDB.Vec) (o : Outcome) :
    Except VectorDB.ApiError VectorDB.Vec :=
  match cfg.apiKey with
  | none => .ok rand
  | some _ =>
    match o with
    | .ok v => .ok v
    | .netErr => .error .requestException
    | .rateLimitOrTimeout => .error .embeddingAPIError
    | .otherErr => .ok rand

/-- `_get_embedding_from_api` under its `@retry(max_tries=3, ...)` decorator
(both raised error types are in the retry list), unrolled to the three
attempts; `outcomes i` is the provider behaviour on attempt `i`.  Returns the
final result together with the number of provider attempts issued. -/
def get_embedding_from_api (cfg : Config) (rand : VectorDB.Vec)
    (outcomes : Nat → Outcome) : Except VectorDB.ApiError VectorDB.Vec × Nat :=
  match apiAttempt cfg rand (outcomes 0) with
  | .ok v => (.ok v, 1)
  | .error _ =>
    match apiAttempt cfg rand (outcomes 1) with
    | .ok v => (.ok v, 2)
    | .error _ => (apiAttempt cfg rand (outcomes 2), 3)

/-- `_get_cache_key`: the source hashes `text + ":" + model_version` with
md5 and keeps 16 hex digits; the hash is modelled by the (injective) keying
on the hashed content itself, which keeps the key equalities the code relies
on. -/
def cache_key (text modelVersion : String) : String :=
  text ++ ":" ++ modelVersion

/-- The Django cache together with a counter of provider attempts. -/
structure CacheState where
  entries : List (String × VectorDB.Vec)
  apiAttempts : Nat
deriving DecidableEq

/-- `_get_cached_embedding`: `None` when the cache is disabled or the key is
absent; the `np.array(cached, dtype=float32)` round trip is the identity on
the vector model. -/
def get_cached_embedding (cfg : Config) (s : CacheState) (text : String) :
    Option VectorDB.Vec :=
  if cfg.enableCache then
    (s.entries.find? (fun p => p.1 == cache_key text cfg.modelVersion)).map (fun p => p.2)
  else none

/-- `_set_cached_embedding`: store under the content key (newest entry
shadows, like `cache.set`); no-op when the cache is disabled. -/
def set_cached_embedding (cfg : Config) (s : CacheState) (text : String)
    (v : VectorDB.Vec) : CacheState :=
  if cfg.enableCache then
    { s with entries := (cache_key text cfg.modelVersion, v) :: s.entries }
  else s

/-- `EmbeddingService.get_embedding`: cache-first; on a miss call the retried
API path, cache a successful vector, and propagate a raised error. -/
def get_embedding (cfg : Config) (rand : VectorDB.Vec) (outcomes : Nat → Outcome)
    (s : CacheState) (text : String) :
    Except VectorDB.ApiError VectorDB.Vec × CacheState :=
  match get_cached_embedding cfg s text with
  | some v => (.ok v, s)
  | none =>
    match get_embedding_from_api cfg rand outcomes with
    | (Except.ok v, n) =>
      (.ok v, set_cached_embedding cfg { s with apiAttempts := s.apiAttempts + n } text v)
    | (Except.error e, n) => (.error e, { s with apiAttempts := s.apiAttempts + n })

end Embedding

/-! ## RerankerService (reranker_service.py) -/

namespace Reranker

/-- `_tokenize` word characters: the `\w` class of the token regex. -/
def isWordChar (c : Char) : Bool := c.isAlphanum || c = '_'

/-- Maximal word-character runs, i.e. `re.findall` of the `\w+` core with the
word boundaries of the source pattern; `run` carries the current run in
reverse. -/
def tokenizeAux : List Char → List Char → List (List Char)
  | run, [] => if run.isEmpty then [] else [run.reverse]
  | run, c :: rest =>
    if isWordChar c then tokenizeAux (c :: run) rest
    else if run.isEmpty then tokenizeAux [] rest
    else run.reverse :: tokenizeAux [] rest

/-- `RerankerService._tokenize`: word tokens, single-character tokens
filtered out. -/
def tokenize (t : List Char) : List (List Char) :=
  (tokenizeAux [] t).filter (fun tok => 1 < tok.length)

/-- Python `str.lower()` (the reranker inputs of interest are within the
range where `Char.toLower` matches Python). -/
def toLower (t : List Char) : List Char := t.map Char.toLower

/-- The fields of `DocumentSearchResultOut` the reranker reads. -/
structure InDoc where
  title : List Char
  content : List Char
  score : ℚ
deriving DecidableEq

/-- The reranked document created by `_create_reranked_doc`, keeping the
original fields. -/
structure OutDoc where
  doc : InDoc
  rerank_score : ℚ
  final_score : ℚ
  rerank_method : String
deriving DecidableEq

/-- Python set-intersection size `len(a & b)` for token sets represented as
lists. -/
def setInterCard (a b : List (List Char)) : Nat :=
  (a.dedup.filter (fun x => x ∈ b)).length

/-- The keyword score of `_rerank_with_keyword_boost`: content overlap plus
doubled title overlap plus phrase-containment bonuses (1.0 for content, 2.0
for title). -/
def keyword_score (query : List Char) (d : InDoc) : ℚ :=
  let queryL := toLower query
  let content := toLower d.content
  let title := toLower d.title
  let qterms := tokenize queryL
  let cterms := tokenize content
  let tterms := tokenize title
  let qcard := qterms.dedup.length
  let content_matches : ℚ :=
    if qcard = 0 then 0 else (setInterCard qterms cterms : ℚ) / (qcard : ℚ)
  let title_matches : ℚ :=
    if qcard = 0 then 0 else (setInterCard qterms tterms : ℚ) / (qcard : ℚ)
  let phrase_bonus : ℚ := if containsSub queryL content then 1 else 0
  let title_phrase_bonus : ℚ := if containsSub queryL title then 2 else 0
  content_matches + 2 * title_matches + phrase_bonus + title_phrase_bonus

/-- `_rerank_with_keyword_boost`: score each candidate, fuse
`0.6 * similarity + 0.4 * keyword`, sort by `final_score` descending. -/
def rerank_with_keyword_boost (query : List Char) (docs : List InDoc) :
    List OutDoc :=
  sortDescBy (fun r => r.final_score)
    (docs.map (fun d =>
      let ks := keyword_score query d
      { doc := d, rerank_score := ks, final_score := 0.6 * d.score + 0.4 * ks,
        rerank_method := "keyword_boost" }))

/-- The strategy branches reachable from `rerank_documents`. -/
inductive Branch
  | llm_rerank
  | llm_score
  | cross_encoder
  | bm25
  | keyword_boost
  | hybrid
deriving DecidableEq

/-- The dispatch chain of `RerankerService.rerank_documents`.  The
`cross_encoder` arm requires `self.cross_encoder` to be truthy
(`cross_encoder_loaded`), i.e. the model must already have been loaded by an
earlier caller; otherwise the chain falls through to the unknown-method
branch, which runs `_rerank_with_llm`. -/
def rerank_dispatch (method : String) (cross_encoder_loaded : Bool) : Branch :=
  if method = "llm_rerank" then .llm_rerank
  else if method = "llm_score" then .llm_score
  else if method = "cross_encoder" ∧ cross_encoder_loaded then .cross_encoder
  else if method = "bm25" then .bm25
  else if method = "keyword_boost" then .keyword_boost
  else if method = "hybrid" then .hybrid
  else .llm_rerank

end Reranker

/-! ## Lemmas about the Simple chunker -/

theorem pyStrip_length_le (t : List Char) : (pyStrip t).length ≤ t.length := by
  unfold pyStrip
  calc ((t.dropWhile isPySpace).reverse.dropWhile isPySpace).reverse.length
      = ((t.dropWhile isPySpace).reverse.dropWhile isPySpace).length :=
        List.length_reverse _
    _ ≤ (t.dropWhile isPySpace).reverse.length := (List.dropWhile_sublist _).length_le
    _ = (t.dropWhile isPySpace).length := List.length_reverse _
    _ ≤ t.length := (List.dropWhile_sublist _).length_le

namespace SimpleChunking

theorem pyRfindAux_le (sub : List Char) (hi : Nat) :
    ∀ (rest : List Char) (i : Nat) (best : Option Nat),
      (∀ x, best = some x → x + sub.length ≤ hi) →
      ∀ p, pyRfindAux sub hi rest i best = some p → p + sub.length ≤ hi := by
  intro rest
  induction rest with
  | nil => intro i best hb p hp; exact hb p hp
  | cons c cs ih =>
    intro i best hb p hp
    simp only [pyRfindAux] at hp
    split at hp
    · exact hb p hp
    · refine ih (i + 1) _ ?_ p hp
      intro x hx
      split at hx
      · cases hx; omega
      · exact hb x hx

theorem pyRfind_le (t sub : List Char) (lo hi p : Nat)
    (h : pyRfind t sub lo hi = some p) : p + sub.length ≤ hi := by
  have hm := pyRfindAux_le sub (min hi t.length) (t.drop lo) lo none
    (by intro x hx; cases hx) p h
  omega

theorem findBoundary_le (t : List Char) (start lo e : Nat) :
    ∀ bs r, findBoundary t start lo e bs = some r → r ≤ e := by
  intro bs
  induction bs with
  | nil => intro r h; simp [findBoundary] at h
  | cons b bs ih =>
    intro r h
    rw [findBoundary] at h
    cases hf : pyRfind t b lo e with
    | none => rw [hf] at h; exact ih r h
    | some q =>
      rw [hf] at h
      dsimp only at h
      by_cases hq : start < q
      · rw [if_pos hq] at h
        cases h
        have := pyRfind_le t b lo e q hf
        omega
      · rw [if_neg hq] at h
        exact ih r h

theorem lookbackScan_le (t : List Char) (lowExcl : Nat) :
    ∀ i r, lookbackScan t lowExcl i = some r → r ≤ i + 1 := by
  intro i
  induction i with
  | zero => intro r h; simp [lookbackScan] at h
  | succ i ih =>
    intro r h
    rw [lookbackScan] at h
    split at h
    · split at h
      · cases h; omega
      · have := ih r h; omega
    · cases h

theorem lookbackScan_input_pos (t : List Char) (lowExcl : Nat) (i r : Nat)
    (h : lookbackScan t lowExcl i = some r) : 1 ≤ i := by
  cases i with
  | zero => simp [lookbackScan] at h
  | succ i => omega

theorem computeEnd_le (t : List Char) (csize lookback start : Nat) :
    computeEnd t csize lookback start ≤ min (start + csize) t.length := by
  simp only [computeEnd]
  split
  · split
    · rename_i r hf
      exact findBoundary_le t start _ _ sentence_boundaries r hf
    · split
      · rename_i r hl
        have hr := lookbackScan_le t _ _ r hl
        have hp := lookbackScan_input_pos t _ _ r hl
        omega
      · exact le_refl _
  · exact le_refl _

theorem computeEnd_sub_le (t : List Char) (csize lookback start : Nat) :
    computeEnd t csize lookback start - start ≤ csize := by
  have := computeEnd_le t csize lookback start
  omega

theorem chunkLoopF_length_le (t : List Char) (csize overlap lookback : Nat) :
    ∀ fuel start, (chunkLoopF t csize overlap lookback fuel start).length ≤ fuel := by
  intro fuel
  induction fuel with
  | zero => intro s; simp [chunkLoopF]
  | succ fuel ih =>
    intro s
    simp only [chunkLoopF]
    split
    · split
      · split
        · simp
        · simp
      · split
        · simp only [List.nil_append]
          exact Nat.le_succ_of_le (ih _)
        · simp only [List.cons_append, List.nil_append, List.length_cons]
          exact Nat.succ_le_succ (ih _)
    · simp

theorem chunkLoopF_mem (t : List Char) (csize overlap lookback : Nat) :
    ∀ fuel start c, c ∈ chunkLoopF t csize overlap lookback fuel start →
      c.isEmpty = false ∧ c.length ≤ csize := by
  intro fuel
  induction fuel with
  | zero => intro s c h; simp [chunkLoopF] at h
  | succ fuel ih =>
    intro s c h
    simp only [chunkLoopF] at h
    split at h
    · have hlen : (pyStrip ((t.drop s).take (computeEnd t csize lookback s - s))).length
          ≤ csize := by
        have h1 := pyStrip_length_le ((t.drop s).take (computeEnd t csize lookback s - s))
        have h2 := computeEnd_sub_le t csize lookback s
        have h3 : ((t.drop s).take (computeEnd t csize lookback s - s)).length
            ≤ computeEnd t csize lookback s - s := by
          rw [List.length_take]; omega
        omega
      split at h
      · split at h
        · simp at h
        · rename_i hne
          rw [List.mem_singleton] at h
          subst h
          exact ⟨Bool.of_not_eq_true hne, hlen⟩
      · rw [List.mem_append] at h
        rcases h with h | h
        · split at h
          · simp at h
          · rename_i hne
            rw [List.mem_singleton] at h
            subst h
            exact ⟨Bool.of_not_eq_true hne, hlen⟩
        · exact ih _ c h
    · simp at h

theorem chunkLoopF_fuel_eq (t : List Char) (csize overlap lookback : Nat) :
    ∀ f₁ f₂ start, t.length - start ≤ f₁ → t.length - start ≤ f₂ →
      chunkLoopF t csize overlap lookback f₁ start =
        chunkLoopF t csize overlap lookback f₂ start := by
  intro f₁
  induction f₁ with
  | zero =>
    intro f₂ s h1 h2
    have hs : ¬ s < t.length := by omega
    cases f₂ with
    | zero => rfl
    | succ f₂ => simp only [chunkLoopF]; rw [if_neg hs]
  | succ f₁ ih =>
    intro f₂ s h1 h2
    cases f₂ with
    | zero =>
      have hs : ¬ s < t.length := by omega
      simp only [chunkLoopF]; rw [if_neg hs]
    | succ f₂ =>
      simp only [chunkLoopF]
      by_cases hs : s < t.length
      · rw [if_pos hs, if_pos hs]
        by_cases he : t.length ≤ computeEnd t csize lookback s
        · rw [if_pos he, if_pos he]
        · rw [if_neg he, if_neg he]
          have hlt := lt_nextStart s (computeEnd t csize lookback s) overlap t.length hs
          congr 1
          exact ih f₂ _ (by omega) (by omega)
      · rw [if_neg hs, if_neg hs]

end SimpleChunking

/-- C8: for every input string and chunking parameters, the Simple chunker
produces at most `len(text)` chunks; from every loop position inside the text
the next start position strictly exceeds the current one; and the loop
terminates within `len(text)` iterations — any fuel of at least `len(text)`
computes the same result, which is the termination of the Python `while`
loop.  (Proved for all `chunk_size`, in particular every `chunk_size ≥ 1`,
and all `overlap`/`lookback` values, covering the `int(chunk_size * ratio)`
defaults.) -/
theorem C8_forward_progress (t : List Char) (csize overlap lookback : Nat) :
    (SimpleChunking.chunk_text t csize overlap lookback).length ≤ t.length ∧
    (∀ start, start < t.length →
      start < SimpleChunking.nextStart start
        (SimpleChunking.computeEnd t csize lookback start) overlap t.length) ∧
    (∀ fuel, t.length ≤ fuel →
      SimpleChunking.chunkLoopF t csize overlap lookback fuel 0 =
        SimpleChunking.chunkLoopF t csize overlap lookback t.length 0) := by
  refine ⟨?_, ?_, ?_⟩
  · unfold SimpleChunking.chunk_text
    split
    · simp
    · exact SimpleChunking.chunkLoopF_length_le t csize overlap lookback t.length 0
  · intro start hstart
    exact SimpleChunking.lt_nextStart start _ overlap t.length hstart
  · intro fuel hfuel
    exact SimpleChunking.chunkLoopF_fuel_eq t csize overlap lookback fuel t.length 0
      (by omega) (by omega)

/-- Witness for C8 at the concrete text "ab" with `chunk_size = 1`. -/
theorem C8_forward_progress_witness :
    (SimpleChunking.chunk_text "ab".toList 1 0 0).length ≤ "ab".toList.length ∧
    0 < SimpleChunking.nextStart 0
      (SimpleChunking.computeEnd "ab".toList 1 0 0) 0 "ab".toList.length ∧
    SimpleChunking.chunkLoopF "ab".toList 1 0 0 7 0 =
      SimpleChunking.chunkLoopF "ab".toList 1 0 0 "ab".toList.length 0 :=
  ⟨(C8_forward_progress "ab".toList 1 0 0).1,
   (C8_forward_progress "ab".toList 1 0 0).2.1 0 (by decide),
   (C8_forward_progress "ab".toList 1 0 0).2.2 7 (by decide)⟩

/-- C10: every chunk the Simple chunker emits is non-empty (whitespace-only
windows are skipped by the `if current_chunk` test after `strip()`) and of
length at most `chunk_size` (the window end never moves past
`start + chunk_size`). -/
theorem C10_chunk_shape (t : List Char) (csize overlap lookback : Nat)
    (c : List Char) (hc : c ∈ SimpleChunking.chunk_text t csize overlap lookback) :
    c.isEmpty = false ∧ c.length ≤ csize := by
  unfold SimpleChunking.chunk_text at hc
  split at hc
  · simp at hc
  · exact SimpleChunking.chunkLoopF_mem t csize overlap lookback t.length 0 c hc

/-- Witness for C10: the chunk "a" of the text "ab" at `chunk_size = 1`. -/
theorem C10_chunk_shape_witness :
    (['a'] : List Char).isEmpty = false ∧ (['a'] : List Char).length ≤ 1 :=
  C10_chunk_shape "ab".toList 1 0 0 ['a'] (by decide)

/-! ## The 3-paragraph scenario of the spec (claim C5)

A document of three paragraphs of exactly 200, 800 and 150 characters,
separated by blank lines. -/

def exP1 : List Char := List.replicate 200 'a'

def exP2 : List Char := List.replicate 800 'b'

def exP3 : List Char := List.replicate 150 'c'

def exText : List Char := exP1 ++ ['\n', '\n'] ++ exP2 ++ ['\n', '\n'] ++ exP3

/-- C5 counterexample: on a 3-paragraph document with paragraph lengths
200/800/150 and `target_size = 500`, the Paragraph strategy does not yield 2
passages (it yields 6: paragraph 2 exceeds `target_size`, so it cannot be
packed with paragraph 1 and is instead split by the Simple strategy at
window 250). -/
theorem C5_counterexample :
    ParagraphChunking.split_paragraphs exText = [exP1, exP2, exP3] ∧
    exP1.length = 200 ∧ exP2.length = 800 ∧ exP3.length = 150 ∧
    (ParagraphChunking.chunk_text exText 500).length = 6 ∧
    ¬ (ParagraphChunking.chunk_text exText 500).length = 2 := by
  have h6 : (ParagraphChunking.chunk_text exText 500).length = 6 := by decide
  exact ⟨by decide, by decide, by decide, by decide, h6, by omega⟩

/-- C5 (amended): on the 200/800/150-character 3-paragraph document with
`target_size = 500`, the Paragraph strategy yields 6 passages: paragraph 1
alone (packing stops because paragraph 2 is longer than `target_size`), then
the four pieces of paragraph 2 produced by the Simple strategy at window
`500 // 2 = 250` with `overlap = int(250 * 0.05) = 12` and
`lookback = int(250 * 0.1) = 25`, then paragraph 3 alone. -/
theorem C5_paragraph_packing :
    ParagraphChunking.chunk_text exText 500 =
      [exP1] ++ SimpleChunking.chunk_text exP2 250 12 25 ++ [exP3] ∧
    SimpleChunking.chunk_text exP2 250 12 25 =
      [List.replicate 250 'b', List.replicate 250 'b', List.replicate 250 'b',
        List.replicate 86 'b'] := by
  constructor
  · decide
  · decide

/-! ## Lemmas about the vector index -/

namespace VectorDB

/-- Iterating `index_document` from a fresh index, for claim C4: each call is
a (document status, chunk batch) pair. -/
def runCalls (nrm : Vec → Vec)
    (calls : List (Bool × List (Nat × Option Vec))) : IndexState :=
  calls.foldl (fun st call => (index_document nrm st call.1 call.2).1) emptyIndex

theorem length_chunk_ids (batch : List (Nat × Option Vec)) :
    ((batch.filter (fun p => p.2.isSome)).map (fun p => p.1)).length =
      (batch.filterMap (fun p => p.2)).length := by
  induction batch with
  | nil => rfl
  | cons p ps ih =>
    cases hp : p.2 with
    | none => simp [List.filter_cons, List.filterMap_cons, hp, ih]
    | some v => simp [List.filter_cons, List.filterMap_cons, hp, ih]

theorem processBatch_inv (nrm : Vec → Vec) (st : IndexState)
    (batch : List (Nat × Option Vec))
    (h : st.chunk_mapping.map Prod.fst = List.range st.ntotal) :
    (processBatch nrm st batch).chunk_mapping.map Prod.fst =
      List.range (processBatch nrm st batch).ntotal := by
  simp only [processBatch]
  split
  · exact h
  · simp only [IndexState.ntotal] at h ⊢
    rw [List.map_append, h, List.length_append, List.length_map]
    have hcomp : (((batch.filter (fun p => p.2.isSome)).map (fun p => p.1)).enum.map
        (fun ji => (st.vectors.length + ji.1, ji.2))).map Prod.fst =
        (List.range ((batch.filterMap (fun p => p.2)).length)).map
          (fun x => st.vectors.length + x) := by
      rw [List.map_map]
      have hfun : (Prod.fst ∘ fun ji : Nat × Nat => (st.vectors.length + ji.1, ji.2)) =
          (fun x : Nat => st.vectors.length + x) ∘ Prod.fst := rfl
      rw [hfun, ← List.map_map, List.enum_map_fst, length_chunk_ids]
    rw [hcomp, ← List.range_add]

theorem foldl_processBatch_inv (nrm : Vec → Vec) :
    ∀ (bs : List (List (Nat × Option Vec))) (st : IndexState),
      st.chunk_mapping.map Prod.fst = List.range st.ntotal →
      (bs.foldl (processBatch nrm) st).chunk_mapping.map Prod.fst =
        List.range (bs.foldl (processBatch nrm) st).ntotal := by
  intro bs
  induction bs with
  | nil => intro st h; exact h
  | cons b bs ih =>
    intro st h
    exact ih (processBatch nrm st b) (processBatch_inv nrm st b h)

theorem index_document_inv (nrm : Vec → Vec) (st : IndexState) (docFailed : Bool)
    (chunks : List (Nat × Option Vec))
    (h : st.chunk_mapping.map Prod.fst = List.range st.ntotal) :
    (index_document nrm st docFailed chunks).1.chunk_mapping.map Prod.fst =
      List.range (index_document nrm st docFailed chunks).1.ntotal := by
  unfold index_document
  split
  · exact h
  · split
    · exact h
    · exact foldl_processBatch_inv nrm (subBatches chunks) st h

end VectorDB

/-- C4: starting from a fresh index, after every sequence of
`index_document` calls (each with its document status and per-chunk
embedding outcomes, failed embeddings skipped) the keys of `chunk_mapping`
are exactly the contiguous dense ids `0 .. ntotal - 1` in order, and the
number of mapping entries equals the index vector count.  Holds for every
normalization function. -/
theorem C4_mapping_contiguous (nrm : VectorDB.Vec → VectorDB.Vec)
    (calls : List (Bool × List (Nat × Option VectorDB.Vec))) :
    (VectorDB.runCalls nrm calls).chunk_mapping.map Prod.fst =
      List.range (VectorDB.runCalls nrm calls).ntotal ∧
    (VectorDB.runCalls nrm calls).chunk_mapping.length =
      (VectorDB.runCalls nrm calls).ntotal := by
  have main : ∀ (cs : List (Bool × List (Nat × Option VectorDB.Vec)))
      (st : VectorDB.IndexState),
      st.chunk_mapping.map Prod.fst = List.range st.ntotal →
      (cs.foldl (fun st call => (VectorDB.index_document nrm st call.1 call.2).1)
          st).chunk_mapping.map Prod.fst =
        List.range (cs.foldl
          (fun st call => (VectorDB.index_document nrm st call.1 call.2).1) st).ntotal := by
    intro cs
    induction cs with
    | nil => intro st h; exact h
    | cons c cs ih =>
      intro st h
      exact ih _ (VectorDB.index_document_inv nrm st c.1 c.2 h)
  have hrange : (VectorDB.runCalls nrm calls).chunk_mapping.map Prod.fst =
      List.range (VectorDB.runCalls nrm calls).ntotal :=
    main calls VectorDB.emptyIndex (by simp [VectorDB.emptyIndex, VectorDB.IndexState.ntotal])
  refine ⟨hrange, ?_⟩
  have := congrArg List.length hrange
  simpa using this

/-! ## Claim C1: error masking in search -/

/-- C1 counterexample: a search that fails internally (embedding error on a
non-empty index) returns `[]`, the very same value an empty-index
"no matches" success returns — there is no distinguishable error result. -/
theorem C1_counterexample :
    VectorDB.search ⟨[[1]], [(0, 0)]⟩ ⟨[], []⟩ "v1"
        (Except.error VectorDB.ApiError.embeddingAPIError) 5 = [] ∧
    VectorDB.search VectorDB.emptyIndex ⟨[], []⟩ "v1" (Except.ok [1]) 5 = [] := by
  constructor
  · rfl
  · rfl

/-- C1 (amended): `VectorDBService.search` masks every internal failure:
its `try/except` converts any raised error — in particular an embedding
failure after retries — into the empty list, which is exactly the empty-success value, so callers
cannot distinguish "no matches" from
"retrieval failed" (the failure is only logged). -/
theorem C1_search_masks_errors :
    (∀ st db mv err k,
      VectorDB.search st db mv (Except.error err) k = ([] : List VectorDB.SearchResult)) ∧
    (∀ db mv q k,
      VectorDB.search VectorDB.emptyIndex db mv (Except.ok q) k =
        ([] : List VectorDB.SearchResult)) := by
  constructor
  · intro st db mv err k
    unfold VectorDB.search
    split
    · rfl
    · rfl
  · intro db mv q k
    rfl

/-! ## Claim C3: search result count and ordering -/

/-- Concrete 5-passage index for the spec scenario: dense ids 0..4 map to
chunks 100..104, all of document 7 under model version "v1"; the stored
vectors give pairwise distinct similarities 10 > 8 > 6 > 4 > 2 against the
query vector `[1]`. -/
def exIndex : VectorDB.IndexState :=
  ⟨[[10], [8], [6], [4], [2]], [(0, 100), (1, 101), (2, 102), (3, 103), (4, 104)]⟩

def exDb : VectorDB.SearchDB :=
  ⟨[(100, ⟨"t100".toList, 0, 7⟩), (101, ⟨"t101".toList, 1, 7⟩),
    (102, ⟨"t102".toList, 2, 7⟩), (103, ⟨"t103".toList, 3, 7⟩),
    (104, ⟨"t104".toList, 4, 7⟩)],
   [(7, ⟨"Doc".toList, "v1"⟩)]⟩

def exR0 : VectorDB.SearchResult := ⟨7, "Doc".toList, "t100".toList, 10, 0, "v1"⟩

def exR1 : VectorDB.SearchResult := ⟨7, "Doc".toList, "t101".toList, 8, 1, "v1"⟩

def exR2 : VectorDB.SearchResult := ⟨7, "Doc".toList, "t102".toList, 6, 2, "v1"⟩

/-- C3: `search` returns at most `min(top_k, index size)` results, always
sorted by similarity score highest first; an empty index yields an empty
result with no error; and in the concrete 5-passage scenario with
`top_k = 3` it returns exactly 3 results in strictly descending similarity
order. -/
theorem C3_search_topk :
    (∀ st db mv emb k, (VectorDB.search st db mv emb k).length ≤ min k st.ntotal) ∧
    (∀ st db mv emb k,
      (VectorDB.search st db mv emb k).Pairwise (fun a b => b.score ≤ a.score)) ∧
    (∀ db mv q k,
      VectorDB.search VectorDB.emptyIndex db mv (Except.ok q) k =
        ([] : List VectorDB.SearchResult)) ∧
    VectorDB.search exIndex exDb "v1" (Except.ok [1]) 3 = [exR0, exR1, exR2] ∧
    exR1.score < exR0.score ∧ exR2.score < exR1.score := by
  refine ⟨?_, ?_, ?_, ?_, ?_, ?_⟩
  · intro st db mv emb k
    unfold VectorDB.search
    split
    · simp
    · match emb with
      | .error _ => simp
      | .ok q =>
        simp only [VectorDB.searchBody]
        rw [length_sortDescBy]
        refine le_trans (List.length_filterMap_le _ _) ?_
        simp only [VectorDB.faissTopK]
        rw [List.length_take]
        exact min_le_left _ _
  · intro st db mv emb k
    unfold VectorDB.search
    split
    · simp
    · match emb with
      | .error _ => simp
      | .ok q =>
        simp only [VectorDB.searchBody]
        exact sorted_sortDescBy _ _
  · intro db mv q k
    rfl
  · decide
  · decide
  · decide

/-! ## Claims C2 and C9: the embedding service -/

/-- A configured embedding service (API key present, cache enabled), shared
by the concrete embedding scenarios. -/
def cfgEx : Embedding.Config := ⟨some "sk-test", "text-embedding-v3", true⟩

/-- C2 counterexample: with a provider configured (API key set) and the
provider call failing with an error that is neither a network nor a
rate-limit/timeout error, `get_embedding` does not surface an error: the
caught exception makes `_get_embedding_from_api` return the random
placeholder vector, which is reported as success (and even written to the
cache) after a single provider attempt. -/
theorem C2_counterexample :
    Embedding.get_embedding cfgEx [3] (fun _ => Embedding.Outcome.otherErr)
        ⟨[], 0⟩ "query" =
      (Except.ok [3],
        ⟨[(Embedding.cache_key "query" "text-embedding-v3", [3])], 1⟩) := by
  rfl

/-- C2 (amended): with a provider configured, network and rate-limit/timeout
provider errors are retried and, after the 3rd failed attempt, surface to
the caller as an error; but any other provider exception is caught inside
`_get_embedding_from_api`, which then silently returns the random
placeholder vector as a success; the placeholder is also returned when no
provider is configured at all. -/
theorem C2_placeholder_on_other_errors (cfg : Embedding.Config)
    (rand : VectorDB.Vec) (outcomes : Nat → Embedding.Outcome) (k : String) :
    (cfg.apiKey = some k →
      ((∀ i, outcomes i = Embedding.Outcome.netErr ∨
          outcomes i = Embedding.Outcome.rateLimitOrTimeout) →
        ∃ e, Embedding.get_embedding_from_api cfg rand outcomes = (Except.error e, 3)) ∧
      (outcomes 0 = Embedding.Outcome.otherErr →
        Embedding.get_embedding_from_api cfg rand outcomes = (Except.ok rand, 1))) ∧
    (cfg.apiKey = none →
      Embedding.get_embedding_from_api cfg rand outcomes = (Except.ok rand, 1)) := by
  constructor
  · intro hk
    constructor
    · intro hfail
      have herr : ∀ i, ∃ e, Embedding.apiAttempt cfg rand (outcomes i) =
          Except.error e := by
        intro i
        rcases hfail i with h | h <;>
          simp [Embedding.apiAttempt, hk, h]
      obtain ⟨e0, he0⟩ := herr 0
      obtain ⟨e1, he1⟩ := herr 1
      obtain ⟨e2, he2⟩ := herr 2
      refine ⟨e2, ?_⟩
      simp [Embedding.get_embedding_from_api, he0, he1, he2]
    · intro h0
      simp [Embedding.get_embedding_from_api, Embedding.apiAttempt, hk, h0]
  · intro hk
    simp [Embedding.get_embedding_from_api, Embedding.apiAttempt, hk]

/-- Witness for C2 (amended) at concrete configurations. -/
theorem C2_placeholder_on_other_errors_witness :
    (∃ e, Embedding.get_embedding_from_api cfgEx [3]
        (fun _ => Embedding.Outcome.netErr) = (Except.error e, 3)) ∧
    Embedding.get_embedding_from_api cfgEx [3]
        (fun _ => Embedding.Outcome.otherErr) = (Except.ok [3], 1) ∧
    Embedding.get_embedding_from_api ⟨none, "text-embedding-v3", true⟩ [3]
        (fun _ => Embedding.Outcome.netErr) = (Except.ok [3], 1) :=
  ⟨((C2_placeholder_on_other_errors cfgEx [3]
      (fun _ => Embedding.Outcome.netErr) "sk-test").1 rfl).1 (fun _ => Or.inl rfl),
   ((C2_placeholder_on_other_errors cfgEx [3]
      (fun _ => Embedding.Outcome.otherErr) "sk-test").1 rfl).2 rfl,
   (C2_placeholder_on_other_errors ⟨none, "text-embedding-v3", true⟩ [3]
      (fun _ => Embedding.Outcome.netErr) "sk-test").2 rfl⟩

/-- C9: with the cache enabled and warm (a successful provider call on the
first attempt), two `get_embedding` calls for the same text and model
version return the identical vector, and only the first issues a provider
attempt — the second is served entirely from the cache. -/
theorem C9_cache_round_trip (cfg : Embedding.Config) (rand : VectorDB.Vec)
    (outcomes : Nat → Embedding.Outcome) (s : Embedding.CacheState)
    (text : String) (v : VectorDB.Vec) (k : String)
    (hc : cfg.enableCache = true)
    (hk : cfg.apiKey = some k)
    (h0 : outcomes 0 = Embedding.Outcome.ok v)
    (hm : s.entries.find?
        (fun p => p.1 == Embedding.cache_key text cfg.modelVersion) = none) :
    (Embedding.get_embedding cfg rand outcomes s text).1 = Except.ok v ∧
    (Embedding.get_embedding cfg rand outcomes s text).2.apiAttempts =
      s.apiAttempts + 1 ∧
    (Embedding.get_embedding cfg rand outcomes
        (Embedding.get_embedding cfg rand outcomes s text).2 text).1 = Except.ok v ∧
    (Embedding.get_embedding cfg rand outcomes
        (Embedding.get_embedding cfg rand outcomes s text).2 text).2.apiAttempts =
      s.apiAttempts + 1 := by
  have hapi : Embedding.get_embedding_from_api cfg rand outcomes = (Except.ok v, 1) := by
    simp [Embedding.get_embedding_from_api, Embedding.apiAttempt, hk, h0]
  have h1 : Embedding.get_embedding cfg rand outcomes s text =
      (Except.ok v,
        ⟨(Embedding.cache_key text cfg.modelVersion, v) :: s.entries,
          s.apiAttempts + 1⟩) := by
    simp [Embedding.get_embedding, Embedding.get_cached_embedding, hc, hm, hapi,
      Embedding.set_cached_embedding]
  have h2 : Embedding.get_embedding cfg rand outcomes
      ⟨(Embedding.cache_key text cfg.modelVersion, v) :: s.entries,
        s.apiAttempts + 1⟩ text =
      (Except.ok v,
        ⟨(Embedding.cache_key text cfg.modelVersion, v) :: s.entries,
          s.apiAttempts + 1⟩) := by
    simp [Embedding.get_embedding, Embedding.get_cached_embedding, hc,
      List.find?_cons_of_pos _ (beq_self_eq_true _)]
  rw [h1]
  exact ⟨rfl, rfl, by rw [h2], by rw [h2]⟩

/-- Witness for C9: a fresh cache, text "hello", provider vector `[5]`. -/
theorem C9_cache_round_trip_witness :
    (Embedding.get_embedding cfgEx [3] (fun _ => Embedding.Outcome.ok [5])
        ⟨[], 0⟩ "hello").1 = Except.ok [5] ∧
    (Embedding.get_embedding cfgEx [3] (fun _ => Embedding.Outcome.ok [5])
        ⟨[], 0⟩ "hello").2.apiAttempts = 0 + 1 ∧
    (Embedding.get_embedding cfgEx [3] (fun _ => Embedding.Outcome.ok [5])
        (Embedding.get_embedding cfgEx [3] (fun _ => Embedding.Outcome.ok [5])
          ⟨[], 0⟩ "hello").2 "hello").1 = Except.ok [5] ∧
    (Embedding.get_embedding cfgEx [3] (fun _ => Embedding.Outcome.ok [5])
        (Embedding.get_embedding cfgEx [3] (fun _ => Embedding.Outcome.ok [5])
          ⟨[], 0⟩ "hello").2 "hello").2.apiAttempts = 0 + 1 :=
  C9_cache_round_trip cfgEx [3] (fun _ => Embedding.Outcome.ok [5]) ⟨[], 0⟩
    "hello" [5] "sk-test" rfl rfl rfl (by rfl)

/-! ## Claims C6 and C7: the reranker -/

theorem setInterCard_le (a b : List (List Char)) :
    Reranker.setInterCard a b ≤ a.dedup.length :=
  List.length_filter_le _ _

theorem ratio_bounds (m n : Nat) (h : m ≤ n) :
    0 ≤ ((m : ℚ) / (n : ℚ)) ∧ (m : ℚ) / (n : ℚ) ≤ 1 := by
  rcases Nat.eq_zero_or_pos n with h0 | h0
  · subst h0
    have : m = 0 := by omega
    subst this
    norm_num
  · have hn : (0 : ℚ) < (n : ℚ) := by exact_mod_cast h0
    constructor
    · positivity
    · rw [div_le_one hn]
      exact_mod_cast h

theorem comb_bounds (cm tm pb tpb : ℚ) (h1 : 0 ≤ cm) (h2 : cm ≤ 1)
    (h3 : 0 ≤ tm) (h4 : tm ≤ 1) (h5 : 0 ≤ pb) (h6 : pb ≤ 1)
    (h7 : 0 ≤ tpb) (h8 : tpb ≤ 2) :
    0 ≤ cm + 2 * tm + pb + tpb ∧ cm + 2 * tm + pb + tpb ≤ 6 := by
  constructor <;> linarith

theorem keyword_score_bounds (query : List Char) (d : Reranker.InDoc) :
    0 ≤ Reranker.keyword_score query d ∧ Reranker.keyword_score query d ≤ 6 := by
  simp only [Reranker.keyword_score]
  refine comb_bounds _ _ _ _ ?_ ?_ ?_ ?_ ?_ ?_ ?_ ?_
  · split
    · norm_num
    · exact (ratio_bounds _ _ (setInterCard_le _ _)).1
  · split
    · norm_num
    · exact (ratio_bounds _ _ (setInterCard_le _ _)).2
  · split
    · norm_num
    · exact (ratio_bounds _ _ (setInterCard_le _ _)).1
  · split
    · norm_num
    · exact (ratio_bounds _ _ (setInterCard_le _ _)).2
  · split <;> norm_num
  · split <;> norm_num
  · split <;> norm_num
  · split <;> norm_num

/-- The concrete keyword-boost scenario: the query occurs verbatim in both
the title and the content, and the original similarity is 1 (inside the
spec's [0,1] similarity range). -/
def exQuery : List Char := "hello world".toList

def exRDoc : Reranker.InDoc := ⟨"hello world".toList, "hello world".toList, 1⟩

theorem keyword_score_ex : Reranker.keyword_score exQuery exRDoc = 6 := by
  have h : Reranker.keyword_score exQuery exRDoc =
      ((2 : ℕ) : ℚ) / ((2 : ℕ) : ℚ) + 2 * (((2 : ℕ) : ℚ) / ((2 : ℕ) : ℚ)) + 1 + 2 := by
    rfl
  rw [h]
  norm_num

theorem keywordBoost_ex_eval :
    Reranker.rerank_with_keyword_boost exQuery [exRDoc] =
      [⟨exRDoc, 6, 3, "keyword_boost"⟩] := by
  have harith : (0.6 : ℚ) * exRDoc.score + 0.4 * 6 = 3 := by
    norm_num [exRDoc]
  simp only [Reranker.rerank_with_keyword_boost, List.map_cons, List.map_nil,
    sortDescBy, List.foldl, insertDescBy, keyword_score_ex, harith]

/-- C6 counterexample: for the keyword-boost method the rerank component is
not confined to [0,1]: with the query contained verbatim in title and
content and an original similarity of 1, the keyword score is 6 and the
produced `final_score` is `0.6*1 + 0.4*6 = 3`, outside the claimed interval
`[0, 0.6*1 + 0.4*1]`. -/
theorem C6_counterexample :
    (Reranker.rerank_with_keyword_boost exQuery [exRDoc]).map
        (fun r => r.final_score) = [3] ∧
    0 ≤ exRDoc.score ∧ exRDoc.score ≤ 1 ∧
    ¬ ((3 : ℚ) ≤ 0.6 * 1 + 0.4 * 1) := by
  refine ⟨?_, ?_, ?_, ?_⟩
  · rw [keywordBoost_ex_eval]
    rfl
  · norm_num [exRDoc]
  · norm_num [exRDoc]
  · norm_num

/-- C6 (amended): for the keyword-boost method, when the original similarity
scores lie in [0,1] every produced rerank component lies in [0,6] (content
overlap up to 1, doubled title overlap up to 2, phrase bonus 1, title phrase
bonus 2), and every `final_score` lies in `[0, 0.6*1 + 0.4*6] = [0,3]` — the
spec's assumption that the rerank component lies in [0,1] is what fails. -/
theorem C6_keyword_boost_bounds (query : List Char) (docs : List Reranker.InDoc)
    (hs : ∀ d ∈ docs, 0 ≤ d.score ∧ d.score ≤ 1) :
    ∀ r ∈ Reranker.rerank_with_keyword_boost query docs,
      0 ≤ r.rerank_score ∧ r.rerank_score ≤ 6 ∧
      0 ≤ r.final_score ∧ r.final_score ≤ 3 := by
  intro r hr
  unfold Reranker.rerank_with_keyword_boost at hr
  have hr' := (mem_sortDescBy _ _ r).1 hr
  rcases List.mem_map.1 hr' with ⟨d, hd, rfl⟩
  have hk := keyword_score_bounds query d
  have hsd := hs d hd
  refine ⟨hk.1, hk.2, ?_, ?_⟩
  · have : (0 : ℚ) ≤ 0.6 * d.score := by
      have := hsd.1
      nlinarith
    have h2 : (0 : ℚ) ≤ 0.4 * Reranker.keyword_score query d := by
      have := hk.1
      nlinarith
    dsimp only
    linarith
  · have h1 : (0.6 : ℚ) * d.score ≤ 0.6 := by nlinarith [hsd.2]
    have h2 : (0.4 : ℚ) * Reranker.keyword_score query d ≤ 2.4 := by nlinarith [hk.2]
    dsimp only
    linarith

/-- Witness for C6 (amended): the bounds at the concrete scenario document. -/
theorem C6_keyword_boost_bounds_witness :
    0 ≤ (6 : ℚ) ∧ (6 : ℚ) ≤ 6 ∧ 0 ≤ (3 : ℚ) ∧ (3 : ℚ) ≤ 3 :=
  C6_keyword_boost_bounds exQuery [exRDoc]
    (by
      intro d hd
      rw [List.mem_singleton] at hd
      subst hd
      norm_num [exRDoc])
    ⟨exRDoc, 6, 3, "keyword_boost"⟩
    (by rw [keywordBoost_ex_eval]; exact List.mem_singleton_self _)

/-- C7: on a fresh `RerankerService` (`self.cross_encoder` is `None`), the
dispatch in `rerank_documents` with method "cross_encoder" falls through to
the unknown-method branch and runs the LLM-order rerank — the lazy loader in
`_rerank_with_cross_encoder` is never invoked, so no model load (and no
load-failure fallback to the LLM score method) can happen; the cross-encoder
branch is reachable only when the model was already loaded by an earlier
caller (for example via `get_available_methods`). -/
theorem C7_cross_encoder_dispatch :
    Reranker.rerank_dispatch "cross_encoder" false = Reranker.Branch.llm_rerank ∧
    Reranker.rerank_dispatch "cross_encoder" true = Reranker.Branch.cross_encoder := by
  constructor
  · decide
  · decide

end AgentFlow
